import Mathlib

/-!
Verification of the blurranker settlement and game-lifecycle engine.

The definitions below are shallow embeddings of the TypeScript sources:

* src/lib/utils/payments.ts : calculatePayments, calculatePlayerBalance
* src/lib/payment.ts        : calculateSimplifiedBalances
* src/lib/stats.ts (game.ts stats part) : calculatePlayerSessionStats
* src/lib/game.ts           : submitRankings, deleteGame
* src/lib/session.ts        : createSession

JavaScript numbers are modelled as rationals, JS Map objects as
insertion-ordered association lists, and the stable Array.prototype.sort
as insertion sort.  Database calls are modelled by explicit state passing
over a DB record; each storage operation's success or failure is an input
(an oracle of Booleans), and a failed insert leaves the state unchanged,
mirroring that a failed Supabase call writes no row.
-/

/-- One entry of a ranking set handed to calculatePayments:
a record with fields player_id and position. -/
structure RankEntry where
  player_id : String
  position : Int
deriving DecidableEq, Repr

/-- A payment record.  calculatePayments produces records without the
is_paid field (modelled as none); persisted Payment rows carry some b.
The truthiness test used by the TS code treats a missing field as false. -/
structure PayRec where
  from_player_id : String
  to_player_id : String
  amount : ℚ
  is_paid : Option Bool := none
deriving DecidableEq, Repr

/-- JS truthiness of an optional boolean field. -/
def truthy : Option Bool → Bool
  | some b => b
  | none => false

/-- The sort at payments.ts line 37: a stable sort by position ascending.
Array.prototype.sort is stable, so any stable sort is a faithful model. -/
def sortByPosition (rankings : List RankEntry) : List RankEntry :=
  List.insertionSort (fun a b => a.position ≤ b.position) rankings

/-- The nested loop of calculatePayments (payments.ts lines 42-55):
recursing over the sorted list, each player pays every earlier player.
The first argument accumulates the players seen so far (the slice
sorted[0..i-1] of the TS code), in order. -/
def pairPayments (amt : ℚ) : List RankEntry → List RankEntry → List PayRec
  | _, [] => []
  | seen, p :: rest =>
      seen.map (fun r =>
        { from_player_id := p.player_id, to_player_id := r.player_id, amount := amt }) ++
      pairPayments amt (seen ++ [p]) rest

/-- calculatePayments (payments.ts lines 28-58): returns [] when fewer
than 2 entries or the bet is not positive, otherwise sorts by position
and emits one record per ordered pair (later pays earlier). -/
def calculatePayments (rankings : List RankEntry) (betAmount : ℚ) : List PayRec :=
  if rankings.length < 2 ∨ betAmount ≤ 0 then []
  else pairPayments betAmount [] (sortByPosition rankings)

/-- calculatePlayerBalance (payments.ts lines 65-86): fold over the
payment list adding received amounts and subtracting paid amounts,
optionally skipping records whose is_paid field is truthy. -/
def calculatePlayerBalance (playerId : String) (payments : List PayRec)
    (onlyUnpaid : Bool) : ℚ :=
  payments.foldl (fun balance payment =>
    if onlyUnpaid && truthy payment.is_paid then balance
    else
      let b1 := if payment.to_player_id = playerId then balance + payment.amount else balance
      if payment.from_player_id = playerId then b1 - payment.amount else b1) 0

/-- One simplified transaction produced by calculateSimplifiedBalances. -/
structure SimplifiedPayment where
  fromPlayerId : String
  toPlayerId : String
  amount : ℚ
deriving DecidableEq, Repr

/-- View a simplified transaction as a payment record (no is_paid field). -/
def SimplifiedPayment.toPayRec (t : SimplifiedPayment) : PayRec :=
  { from_player_id := t.fromPlayerId, to_player_id := t.toPlayerId, amount := t.amount }

/-- The JS expression balances.get(k) || 0: the stored value, or 0 when absent
(a stored 0 also yields 0, which coincides). -/
def mapGetOr0 (m : List (String × ℚ)) (k : String) : ℚ :=
  match m.find? (fun p => p.1 = k) with
  | some p => p.2
  | none => 0

/-- The JS call balances.set(k, v): update in place when the key exists
(keeping its position in insertion order), otherwise append. -/
def mapSet (m : List (String × ℚ)) (k : String) (v : ℚ) : List (String × ℚ) :=
  if m.any (fun p => p.1 = k) then
    m.map (fun p => if p.1 = k then (k, v) else p)
  else m ++ [(k, v)]

/-- The body of the first loop of calculateSimplifiedBalances (payment.ts
lines 177-187): subtract the amount from the payer's balance and add it to
the payee's, skipping paid records. -/
def balanceStep (m : List (String × ℚ)) (payment : PayRec) : List (String × ℚ) :=
  if truthy payment.is_paid then m
  else
    let m1 := mapSet m payment.from_player_id
      (mapGetOr0 m payment.from_player_id - payment.amount)
    mapSet m1 payment.to_player_id
      (mapGetOr0 m1 payment.to_player_id + payment.amount)

/-- The first loop of calculateSimplifiedBalances (payment.ts lines 175-187):
net balance per player over the unpaid payments, as an insertion-ordered map. -/
def buildBalances (payments : List PayRec) : List (String × ℚ) :=
  payments.foldl balanceStep []

/-- The stable descending sort by amount (payment.ts lines 202-203). -/
def sortDescByAmount (l : List (String × ℚ)) : List (String × ℚ) :=
  List.insertionSort (fun a b => b.2 ≤ a.2) l

/-- The while loop of calculateSimplifiedBalances (payment.ts lines 211-230).
Each iteration transacts min(debtor remaining, creditor remaining); the
debtor index advances exactly when its remainder hits 0 (iff da ≤ ca) and
likewise for the creditor (iff ca ≤ da), so the branch structure below is
the exact case analysis of the two JS zero tests. -/
def greedyMatch : List (String × ℚ) → List (String × ℚ) → List SimplifiedPayment
  | [], _ => []
  | _ :: _, [] => []
  | (d, da) :: ds, (c, ca) :: cs =>
    let amt := min da ca
    let out := if 0 < amt then [SimplifiedPayment.mk d c amt] else []
    if da ≤ ca then
      if ca ≤ da then out ++ greedyMatch ds cs
      else out ++ greedyMatch ds ((c, ca - amt) :: cs)
    else out ++ greedyMatch ((d, da - amt) :: ds) cs
termination_by ds cs => ds.length + cs.length
decreasing_by all_goals simp_arith

/-- calculateSimplifiedBalances (payment.ts lines 171-233): net the unpaid
payments per player, split into debtors (negative balance, stored as its
absolute value) and creditors (positive balance), sort both descending by
amount, and greedily match them. -/
def calculateSimplifiedBalances (payments : List PayRec) : List SimplifiedPayment :=
  let balances := buildBalances payments
  let debtors := (balances.filter (fun p => p.2 < 0)).map (fun p => (p.1, |p.2|))
  let creditors := balances.filter (fun p => 0 < p.2)
  greedyMatch (sortDescByAmount debtors) (sortDescByAmount creditors)

/-- Number of distinct (payer, payee) pairs among the unpaid input payments;
this is the transaction-count bound the specification asserts. -/
def distinctUnpaidPairs (payments : List PayRec) : Nat :=
  (((payments.filter (fun p => ¬ truthy p.is_paid)).map
      (fun p => (p.from_player_id, p.to_player_id))).dedup).length

/-- Number of players whose net balance over the unpaid payments is nonzero
(the debtors and creditors together). -/
def nonzeroBalanceCount (payments : List PayRec) : Nat :=
  ((buildBalances payments).filter (fun p => p.2 ≠ 0)).length

/-- A persisted ranking row: (game, player, position). -/
structure RankingRow where
  game_id : String
  player_id : String
  position : Int
deriving DecidableEq, Repr

/-- The per-player statistics record of stats.ts. -/
structure PlayerStats where
  playerId : String
  playerName : String
  gamesPlayed : Nat
  wins : Nat
  secondPlaces : Nat
  thirdPlaces : Nat
  lastPlaces : Nat
  winRate : ℚ
  totalEarnings : ℚ
  totalLosses : ℚ
  netProfit : ℚ
  averagePosition : ℚ
deriving DecidableEq, Repr

/-- The JS expression totalPlayersInGames.get(gameId) || 0 on a map of counts. -/
def natGetOr0 (m : List (String × Nat)) (k : String) : Nat :=
  match m.find? (fun p => p.1 = k) with
  | some p => p.2
  | none => 0

/-- calculatePlayerSessionStats (stats.ts lines 30-98): filters the given
rankings to the player, counts wins and placements, computes the win rate
as a percentage, sums received and paid amounts, and averages positions. -/
def calculatePlayerSessionStats (playerId playerName : String)
    (rankings : List RankingRow) (payments : List PayRec)
    (totalPlayersInGames : List (String × Nat)) : PlayerStats :=
  let playerRankings := rankings.filter (fun r => r.player_id = playerId)
  let gamesPlayed := playerRankings.length
  if gamesPlayed = 0 then
    { playerId := playerId, playerName := playerName, gamesPlayed := 0, wins := 0,
      secondPlaces := 0, thirdPlaces := 0, lastPlaces := 0, winRate := 0,
      totalEarnings := 0, totalLosses := 0, netProfit := 0, averagePosition := 0 }
  else
    let wins := (playerRankings.filter (fun r => r.position = 1)).length
    let secondPlaces := (playerRankings.filter (fun r => r.position = 2)).length
    let thirdPlaces := (playerRankings.filter (fun r => r.position = 3)).length
    let lastPlaces := (playerRankings.filter
      (fun r => r.position = (natGetOr0 totalPlayersInGames r.game_id : Int))).length
    let winRate : ℚ := if 0 < gamesPlayed then ((wins : ℚ) / gamesPlayed) * 100 else 0
    let totalPositions : Int := (playerRankings.map (fun r => r.position)).sum
    let averagePosition : ℚ :=
      if 0 < gamesPlayed then (totalPositions : ℚ) / gamesPlayed else 0
    let totalEarnings : ℚ :=
      ((payments.filter (fun p => p.to_player_id = playerId)).map (fun p => p.amount)).sum
    let totalLosses : ℚ :=
      ((payments.filter (fun p => p.from_player_id = playerId)).map (fun p => p.amount)).sum
    { playerId := playerId, playerName := playerName, gamesPlayed := gamesPlayed,
      wins := wins, secondPlaces := secondPlaces, thirdPlaces := thirdPlaces,
      lastPlaces := lastPlaces, winRate := winRate, totalEarnings := totalEarnings,
      totalLosses := totalLosses, netProfit := totalEarnings - totalLosses,
      averagePosition := averagePosition }

/-- Game status values. -/
inductive GameStatus where
  | pending
  | completed
deriving DecidableEq, Repr

/-- A persisted game row (timestamps omitted; no claim mentions them). -/
structure GameRow where
  id : String
  session_id : String
  status : GameStatus
deriving DecidableEq, Repr

/-- A persisted session row. -/
structure SessionRow where
  id : String
  name : String
  creator_id : String
  bet_amount : ℚ
deriving DecidableEq, Repr

/-- A persisted payment row as written by submitRankings. -/
structure PaymentRow where
  session_id : String
  game_id : String
  from_player_id : String
  to_player_id : String
  amount : ℚ
deriving DecidableEq, Repr

/-- A session_players row. -/
structure MembershipRow where
  session_id : String
  player_id : String
  is_creator : Bool
deriving DecidableEq, Repr

/-- The persisted entity set the lifecycle operations mutate.
Confirmations are (game_id, player_id) pairs. -/
structure DB where
  sessions : List SessionRow
  members : List MembershipRow
  games : List GameRow
  rankings : List RankingRow
  payments : List PaymentRow
  confirmations : List (String × String)
deriving DecidableEq, Repr

/-- Success flags for the storage calls issued by submitRankings, in
program order.  The two delete calls' results are not inspected by the
code; a false flag means the rows stay.  A false insert flag means the
insert wrote nothing and reported an error. -/
structure SubmitOracle where
  deleteRankingsOk : Bool
  deletePaymentsOk : Bool
  insertRankingsOk : Bool
  insertPaymentsOk : Bool
  updateGameOk : Bool
deriving DecidableEq, Repr

/-- Success flags for the four delete calls issued by deleteGame. -/
structure DeleteOracle where
  deleteConfirmationsOk : Bool
  deleteRankingsOk : Bool
  deletePaymentsOk : Bool
  deleteGameOk : Bool
deriving DecidableEq, Repr

/-- Success flags for the storage calls issued by createSession. -/
structure CreateSessionOracle where
  insertSessionOk : Bool
  insertMemberOk : Bool
  deleteSessionOk : Bool
deriving DecidableEq, Repr

/-- Look up a game row by id. -/
def findGame (db : DB) (gameId : String) : Option GameRow :=
  db.games.find? (fun g => g.id = gameId)

/-- Look up a session row by id (the session:sessions(...) join). -/
def findSession (db : DB) (sessionId : String) : Option SessionRow :=
  db.sessions.find? (fun s => s.id = sessionId)

/-- submitRankings (game.ts lines 135-217).  Looks up the game and its
session; rejects a caller who is not the session creator; then deletes the
prior rankings and payments for the game, inserts the new rankings
(returning false on failure, with the deletions already applied), inserts
the computed payments when nonempty (an error here is logged and ignored),
and marks the game completed (an error here is also ignored).  The code
performs no validation of the ranking set. -/
def submitRankings (db : DB) (o : SubmitOracle) (gameId : String)
    (rankings : List RankEntry) (creatorId : String) : DB × Bool :=
  match findGame db gameId with
  | none => (db, false)
  | some game =>
    match findSession db game.session_id with
    | none => (db, false)
    | some session =>
      if session.creator_id ≠ creatorId then (db, false)
      else
        let db1 := if o.deleteRankingsOk then
          { db with rankings := db.rankings.filter (fun r => r.game_id ≠ gameId) } else db
        let db2 := if o.deletePaymentsOk then
          { db1 with payments := db1.payments.filter (fun p => p.game_id ≠ gameId) } else db1
        if ¬ o.insertRankingsOk then (db2, false)
        else
          let rankingRecords := rankings.map
            (fun r => RankingRow.mk gameId r.player_id r.position)
          let db3 := { db2 with rankings := db2.rankings ++ rankingRecords }
          let paymentRecords := (calculatePayments rankings session.bet_amount).map
            (fun p => PaymentRow.mk game.session_id gameId
              p.from_player_id p.to_player_id p.amount)
          let db4 := if paymentRecords ≠ [] ∧ o.insertPaymentsOk then
            { db3 with payments := db3.payments ++ paymentRecords } else db3
          let db5 := if o.updateGameOk then
            { db4 with games := db4.games.map (fun g =>
                if g.id = gameId then { g with status := GameStatus.completed } else g) }
            else db4
          (db5, true)

/-- deleteGame (game.ts lines 279-318).  Looks up the game and its session;
rejects a caller who is not the session creator; then deletes the game's
confirmations, rankings and payments (results unchecked) and finally the
game row itself, returning false when that last delete fails.  The code
never consults game.status. -/
def deleteGame (db : DB) (o : DeleteOracle) (gameId : String)
    (creatorId : String) : DB × Bool :=
  match findGame db gameId with
  | none => (db, false)
  | some game =>
    match findSession db game.session_id with
    | none => (db, false)
    | some session =>
      if session.creator_id ≠ creatorId then (db, false)
      else
        let db1 := if o.deleteConfirmationsOk then
          { db with confirmations := db.confirmations.filter (fun c => c.1 ≠ gameId) }
          else db
        let db2 := if o.deleteRankingsOk then
          { db1 with rankings := db1.rankings.filter (fun r => r.game_id ≠ gameId) } else db1
        let db3 := if o.deletePaymentsOk then
          { db2 with payments := db2.payments.filter (fun p => p.game_id ≠ gameId) } else db2
        if o.deleteGameOk then
          ({ db3 with games := db3.games.filter (fun g => g.id ≠ gameId) }, true)
        else (db3, false)

/-- createSession (session.ts lines 17-56).  Inserts the session row
(returning null on failure), then inserts the creator's membership row;
when that fails it issues a compensating delete of the session — whose own
error the code does not check — and returns null. -/
def createSession (db : DB) (o : CreateSessionOracle) (newId : String)
    (name : String) (betAmount : ℚ) (creatorId : String) : DB × Option SessionRow :=
  if ¬ o.insertSessionOk then (db, none)
  else
    let row : SessionRow := ⟨newId, name, creatorId, betAmount⟩
    let db1 := { db with sessions := db.sessions ++ [row] }
    if o.insertMemberOk then
      ({ db1 with members := db1.members ++ [⟨newId, creatorId, true⟩] }, some row)
    else
      let db2 := if o.deleteSessionOk then
        { db1 with sessions := db1.sessions.filter (fun s => s.id ≠ newId) } else db1
      (db2, none)


/-! ## Basic order instances for the sort relations -/

instance : IsTotal RankEntry (fun a b => a.position ≤ b.position) :=
  ⟨fun a b => Int.le_total a.position b.position⟩

instance : IsTrans RankEntry (fun a b => a.position ≤ b.position) :=
  ⟨fun _ _ _ h1 h2 => le_trans h1 h2⟩

instance : IsTotal (String × ℚ) (fun a b => b.2 ≤ a.2) :=
  ⟨fun a b => (le_total b.2 a.2)⟩

instance : IsTrans (String × ℚ) (fun a b => b.2 ≤ a.2) :=
  ⟨fun _ _ _ h1 h2 => le_trans h2 h1⟩

instance : IsAntisymm RankEntry (fun a b => a.position < b.position) :=
  ⟨fun _ _ h1 h2 => absurd h2 (lt_asymm h1)⟩

/-! ## C9: degenerate inputs of calculatePayments -/

/-- C9: for every ranking list with fewer than 2 entries, and for every
stake at most 0 with any ranking list, calculatePayments returns the empty
record set. -/
theorem calculatePayments_degenerate_empty (rankings : List RankEntry) (S : ℚ)
    (h : rankings.length < 2 ∨ S ≤ 0) :
    calculatePayments rankings S = [] := by
  rw [calculatePayments, if_pos h]

/-- Witness for C9 at a one-entry ranking list and stake 5. -/
theorem calculatePayments_degenerate_empty_witness :
    (([⟨"solo", 1⟩] : List RankEntry).length < 2 ∨ (5 : ℚ) ≤ 0) ∧
      calculatePayments [⟨"solo", 1⟩] 5 = [] :=
  ⟨Or.inl (by decide),
    calculatePayments_degenerate_empty [⟨"solo", 1⟩] 5 (Or.inl (by decide))⟩

/-! ## C6: non-owner calls are rejected with no state change -/

/-- C6: when the actor is not the owning session's creator, both
submitRankings and deleteGame return failure with the persisted state
exactly unchanged, whatever the storage oracle would have answered. -/
theorem submitRankings_deleteGame_nonowner_unchanged
    (db : DB) (o : SubmitOracle) (o' : DeleteOracle) (gameId : String)
    (rset : List RankEntry) (actor : String) (game : GameRow) (session : SessionRow)
    (hg : findGame db gameId = some game)
    (hs : findSession db game.session_id = some session)
    (hne : session.creator_id ≠ actor) :
    submitRankings db o gameId rset actor = (db, false) ∧
      deleteGame db o' gameId actor = (db, false) := by
  constructor
  · simp only [submitRankings, hg, hs]
    rw [if_pos hne]
  · simp only [deleteGame, hg, hs]
    rw [if_pos hne]

/-- Witness for C6: a stranger calling both operations on a concrete state. -/
theorem submitRankings_deleteGame_nonowner_unchanged_witness :
    submitRankings
        { sessions := [⟨"s1", "S", "alice", 5⟩], members := [],
          games := [⟨"g1", "s1", GameStatus.pending⟩], rankings := [],
          payments := [], confirmations := [] }
        ⟨true, true, true, true, true⟩ "g1" [⟨"a", 1⟩, ⟨"b", 2⟩] "mallory" =
      ({ sessions := [⟨"s1", "S", "alice", 5⟩], members := [],
         games := [⟨"g1", "s1", GameStatus.pending⟩], rankings := [],
         payments := [], confirmations := [] }, false) ∧
    deleteGame
        { sessions := [⟨"s1", "S", "alice", 5⟩], members := [],
          games := [⟨"g1", "s1", GameStatus.pending⟩], rankings := [],
          payments := [], confirmations := [] }
        ⟨true, true, true, true⟩ "g1" "mallory" =
      ({ sessions := [⟨"s1", "S", "alice", 5⟩], members := [],
         games := [⟨"g1", "s1", GameStatus.pending⟩], rankings := [],
         payments := [], confirmations := [] }, false) :=
  submitRankings_deleteGame_nonowner_unchanged _ _ _ _ _ _
    ⟨"g1", "s1", GameStatus.pending⟩ ⟨"s1", "S", "alice", 5⟩ rfl rfl (by decide)

/-! ## C2: submitRankings is not atomic -/

/-- C2 exhibit: with prior rankings and payments persisted for the game, a
failure of the replacement rankings insert leaves the prior rankings and
payments already deleted and nothing written back, and submitRankings
returns false — the operation is not all-or-nothing. -/
theorem submitRankings_not_atomic_on_insert_failure :
    submitRankings
        { sessions := [⟨"s1", "S", "alice", 5⟩], members := [],
          games := [⟨"g1", "s1", GameStatus.completed⟩],
          rankings := [⟨"g1", "a", 1⟩, ⟨"g1", "b", 2⟩],
          payments := [⟨"s1", "g1", "b", "a", 5⟩], confirmations := [] }
        ⟨true, true, false, true, true⟩ "g1" [⟨"a", 1⟩, ⟨"b", 2⟩] "alice" =
      ({ sessions := [⟨"s1", "S", "alice", 5⟩], members := [],
         games := [⟨"g1", "s1", GameStatus.completed⟩],
         rankings := [], payments := [], confirmations := [] }, false) := by
  rfl

/-! ## C4: deleteGame never checks the game status -/

/-- C4 exhibit: deleteGame called by the session owner on a game whose
status is completed cascades the deletion of its confirmations, rankings,
payments and the game row and returns true; the code contains no status
check at all, contradicting its own documentation comment
(game.ts line 277: only pending games). -/
theorem deleteGame_deletes_completed_game :
    deleteGame
        { sessions := [⟨"s1", "S", "alice", 5⟩], members := [],
          games := [⟨"g1", "s1", GameStatus.completed⟩],
          rankings := [⟨"g1", "a", 1⟩, ⟨"g1", "b", 2⟩],
          payments := [⟨"s1", "g1", "b", "a", 5⟩],
          confirmations := [("g1", "a")] }
        ⟨true, true, true, true⟩ "g1" "alice" =
      ({ sessions := [⟨"s1", "S", "alice", 5⟩], members := [],
         games := [], rankings := [], payments := [],
         confirmations := [] }, true) := by
  rfl

/-! ## C3: submitRankings performs no validation of the ranking set -/

/-- C3 exhibit: a ranking set with a single entry (fewer than 2, and not a
1..N permutation of at least two players) submitted by the session owner
is accepted: the stored ranking set is replaced by the malformed one, the
game is marked completed, and the call returns true.  No ValidationError
exists anywhere in the code. -/
theorem submitRankings_accepts_malformed_set :
    submitRankings
        { sessions := [⟨"s1", "S", "alice", 5⟩], members := [],
          games := [⟨"g1", "s1", GameStatus.pending⟩],
          rankings := [], payments := [], confirmations := [] }
        ⟨true, true, true, true, true⟩ "g1" [⟨"a", 1⟩] "alice" =
      ({ sessions := [⟨"s1", "S", "alice", 5⟩], members := [],
         games := [⟨"g1", "s1", GameStatus.completed⟩],
         rankings := [⟨"g1", "a", 1⟩], payments := [],
         confirmations := [] }, true) := by
  rfl

/-- C3 amended: for any ranking set whatsoever — malformed ones included —
submitRankings called by the session owner with all storage operations
succeeding replaces the game's rankings with exactly the given entries,
replaces its payments with those computed by calculatePayments (none when
the set has fewer than 2 entries or the stake is not positive), marks the
game completed and returns true. -/
theorem submitRankings_success_path_no_validation
    (db : DB) (o : SubmitOracle) (gameId : String) (rset : List RankEntry)
    (actor : String) (game : GameRow) (session : SessionRow)
    (hg : findGame db gameId = some game)
    (hs : findSession db game.session_id = some session)
    (hc : session.creator_id = actor)
    (hdr : o.deleteRankingsOk = true) (hdp : o.deletePaymentsOk = true)
    (hir : o.insertRankingsOk = true) (hip : o.insertPaymentsOk = true)
    (hug : o.updateGameOk = true) :
    submitRankings db o gameId rset actor =
      ({ db with
          rankings := db.rankings.filter (fun r => r.game_id ≠ gameId) ++
            rset.map (fun r => RankingRow.mk gameId r.player_id r.position),
          payments := db.payments.filter (fun p => p.game_id ≠ gameId) ++
            (calculatePayments rset session.bet_amount).map
              (fun p => PaymentRow.mk game.session_id gameId
                p.from_player_id p.to_player_id p.amount),
          games := db.games.map (fun g =>
            if g.id = gameId then { g with status := GameStatus.completed } else g) },
        true) := by
  simp only [submitRankings, hg, hs, hc, hdr, hdp, hir, hip, hug, ne_eq, not_true_eq_false,
    if_false, if_true, ite_true, ite_false, not_false_eq_true]
  by_cases hpr : (calculatePayments rset session.bet_amount).map
      (fun p => PaymentRow.mk game.session_id gameId
        p.from_player_id p.to_player_id p.amount) = []
  · simp [hpr]
  · simp [hpr]

/-- Witness for C3's amended statement, at a malformed one-entry set. -/
theorem submitRankings_success_path_no_validation_witness :
    submitRankings
        { sessions := [⟨"s1", "S", "alice", 5⟩], members := [],
          games := [⟨"g1", "s1", GameStatus.pending⟩],
          rankings := [⟨"g1", "z", 9⟩], payments := [], confirmations := [] }
        ⟨true, true, true, true, true⟩ "g1" [⟨"a", 1⟩] "alice" =
      ({ sessions := [⟨"s1", "S", "alice", 5⟩], members := [],
         games := ([⟨"g1", "s1", GameStatus.pending⟩] : List GameRow).map (fun g =>
           if g.id = "g1" then { g with status := GameStatus.completed } else g),
         rankings := ([⟨"g1", "z", 9⟩] : List RankingRow).filter
             (fun r => r.game_id ≠ "g1") ++
           ([⟨"a", 1⟩] : List RankEntry).map
             (fun r => RankingRow.mk "g1" r.player_id r.position),
         payments := ([] : List PaymentRow).filter (fun p => p.game_id ≠ "g1") ++
           (calculatePayments [⟨"a", 1⟩] 5).map
             (fun p => PaymentRow.mk "s1" "g1" p.from_player_id p.to_player_id p.amount),
         confirmations := [] }, true) :=
  submitRankings_success_path_no_validation _ _ _ _ _
    ⟨"g1", "s1", GameStatus.pending⟩ ⟨"s1", "S", "alice", 5⟩
    rfl rfl rfl rfl rfl rfl rfl rfl

/-! ## C10: createSession and its compensating delete -/

/-- C10 exhibit: when the membership insert fails and the compensating
session delete also fails (its error is never checked by the code), the
call returns null but the new session row remains persisted with no
creator membership, so the session/membership pair is not all-or-nothing. -/
theorem createSession_orphan_on_failed_compensation :
    createSession
        { sessions := [], members := [], games := [], rankings := [],
          payments := [], confirmations := [] }
        ⟨true, false, false⟩ "s1" "S" 5 "alice" =
      ({ sessions := [⟨"s1", "S", "alice", 5⟩], members := [], games := [],
         rankings := [], payments := [], confirmations := [] }, none) := by
  rfl

/-- C10 amended: provided the compensating delete succeeds (the code never
checks its result), createSession is all-or-nothing for a fresh session
id: a null result leaves the state exactly unchanged, and a non-null
result persists both the session row and the creator's membership row. -/
theorem createSession_all_or_nothing_when_compensation_succeeds
    (db : DB) (o : CreateSessionOracle) (newId name actor : String) (bet : ℚ)
    (hdel : o.deleteSessionOk = true)
    (hfresh : ∀ s ∈ db.sessions, s.id ≠ newId) :
    ((createSession db o newId name bet actor).2 = none ∧
       (createSession db o newId name bet actor).1 = db) ∨
    ((createSession db o newId name bet actor).2 = some ⟨newId, name, actor, bet⟩ ∧
       (⟨newId, name, actor, bet⟩ : SessionRow) ∈
         (createSession db o newId name bet actor).1.sessions ∧
       (⟨newId, actor, true⟩ : MembershipRow) ∈
         (createSession db o newId name bet actor).1.members) := by
  obtain ⟨os, om, od⟩ := o
  subst hdel
  cases os with
  | false => exact Or.inl ⟨rfl, rfl⟩
  | true =>
    cases om with
    | false =>
      refine Or.inl ⟨rfl, ?_⟩
      have hfil : db.sessions.filter (fun s => s.id ≠ newId) = db.sessions :=
        List.filter_eq_self.mpr (fun s hs => by simpa using hfresh s hs)
      show ({ db with sessions :=
          ((db.sessions ++ [SessionRow.mk newId name actor bet]).filter
              (fun s => s.id ≠ newId)) } : DB) = db
      rw [List.filter_append, hfil]
      simp
    | true =>
      refine Or.inr ⟨rfl, ?_, ?_⟩ <;> simp [createSession]

/-- Witness for C10's amended statement on a concrete state and oracle. -/
theorem createSession_all_or_nothing_witness :
    ((createSession
        { sessions := [⟨"s0", "Old", "bob", 3⟩], members := [], games := [],
          rankings := [], payments := [], confirmations := [] }
        ⟨true, false, true⟩ "s1" "S" 5 "alice").2 = none ∧
       (createSession
        { sessions := [⟨"s0", "Old", "bob", 3⟩], members := [], games := [],
          rankings := [], payments := [], confirmations := [] }
        ⟨true, false, true⟩ "s1" "S" 5 "alice").1 =
         { sessions := [⟨"s0", "Old", "bob", 3⟩], members := [], games := [],
           rankings := [], payments := [], confirmations := [] }) ∨
    ((createSession
        { sessions := [⟨"s0", "Old", "bob", 3⟩], members := [], games := [],
          rankings := [], payments := [], confirmations := [] }
        ⟨true, false, true⟩ "s1" "S" 5 "alice").2 = some ⟨"s1", "S", "alice", 5⟩ ∧
       (⟨"s1", "S", "alice", 5⟩ : SessionRow) ∈
         (createSession
        { sessions := [⟨"s0", "Old", "bob", 3⟩], members := [], games := [],
          rankings := [], payments := [], confirmations := [] }
        ⟨true, false, true⟩ "s1" "S" 5 "alice").1.sessions ∧
       (⟨"s1", "alice", true⟩ : MembershipRow) ∈
         (createSession
        { sessions := [⟨"s0", "Old", "bob", 3⟩], members := [], games := [],
          rankings := [], payments := [], confirmations := [] }
        ⟨true, false, true⟩ "s1" "S" 5 "alice").1.members) :=
  createSession_all_or_nothing_when_compensation_succeeds _ _ _ _ _ _
    rfl (by decide)

/-! ## C8: the winRate field is a percentage -/

/-- C8 exhibit: a player with 1 win in 2 games gets winRate 50, not the
claimed wins divided by games played, which is one half. -/
theorem winRate_percentage_counterexample :
    (calculatePlayerSessionStats "p" "P"
        [⟨"g1", "p", 1⟩, ⟨"g2", "p", 2⟩] [] []).winRate = 50 ∧
    ((calculatePlayerSessionStats "p" "P"
        [⟨"g1", "p", 1⟩, ⟨"g2", "p", 2⟩] [] []).wins : ℚ) /
      ((calculatePlayerSessionStats "p" "P"
        [⟨"g1", "p", 1⟩, ⟨"g2", "p", 2⟩] [] []).gamesPlayed : ℚ) = 1 / 2 ∧
    (50 : ℚ) ≠ 1 / 2 := by
  refine ⟨?_, ?_, by norm_num⟩ <;>
    norm_num +decide [calculatePlayerSessionStats, natGetOr0]

/-- C8 amended: for a player with at least one game, the winRate field
equals wins divided by games played, multiplied by 100 (a percentage). -/
theorem winRate_eq_wins_div_games_times_100
    (playerId playerName : String) (rankings : List RankingRow)
    (payments : List PayRec) (tpg : List (String × Nat))
    (h : rankings.filter (fun r => r.player_id = playerId) ≠ []) :
    (calculatePlayerSessionStats playerId playerName rankings payments tpg).winRate =
      ((calculatePlayerSessionStats playerId playerName rankings payments tpg).wins : ℚ) /
        ((calculatePlayerSessionStats playerId playerName rankings
            payments tpg).gamesPlayed : ℚ) * 100 := by
  have hlen : (rankings.filter (fun r => r.player_id = playerId)).length ≠ 0 := by
    simpa [List.length_eq_zero] using h
  rw [calculatePlayerSessionStats]
  rw [if_neg hlen]
  simp only
  rw [if_pos (Nat.pos_of_ne_zero hlen)]

/-- Witness for C8's amended statement on a single-game player. -/
theorem winRate_eq_wins_div_games_times_100_witness :
    (calculatePlayerSessionStats "p" "P" [⟨"g1", "p", 1⟩] [] []).winRate =
      ((calculatePlayerSessionStats "p" "P" [⟨"g1", "p", 1⟩] [] []).wins : ℚ) /
        ((calculatePlayerSessionStats "p" "P" [⟨"g1", "p", 1⟩] [] []).gamesPlayed : ℚ) * 100 :=
  winRate_eq_wins_div_games_times_100 "p" "P" [⟨"g1", "p", 1⟩] [] [] (by decide)

/-! ## C1: shape, count and zero-sum of the settlement output -/

/-- Length bookkeeping for the nested settlement loop: with s players seen
and k remaining, the loop emits s·k + k·(k−1)/2 records; stated without
division as 2·len + k = k² + 2·s·k. -/
theorem pairPayments_length (amt : ℚ) :
    ∀ (l seen : List RankEntry),
      2 * (pairPayments amt seen l).length + l.length =
        l.length * l.length + 2 * seen.length * l.length := by
  intro l
  induction l with
  | nil => intro seen; simp [pairPayments]
  | cons p rest ih =>
    intro seen
    have h := ih (seen ++ [p])
    simp only [pairPayments, List.length_append, List.length_map, List.length_cons,
      List.length_nil] at h ⊢
    nlinarith [h]

/-- The settlement record count is N·(N−1)/2 when N ≥ 2 and the stake is
positive. -/
theorem calculatePayments_length_eq (rankings : List RankEntry) (S : ℚ)
    (hN : 2 ≤ rankings.length) (hS : 0 < S) :
    (calculatePayments rankings S).length =
      rankings.length * (rankings.length - 1) / 2 := by
  have hcond : ¬ (rankings.length < 2 ∨ S ≤ 0) := by
    push_neg
    exact ⟨hN, hS⟩
  rw [calculatePayments, if_neg hcond]
  have hlen : (sortByPosition rankings).length = rankings.length :=
    (List.perm_insertionSort _ rankings).length_eq
  have key := pairPayments_length S (sortByPosition rankings) []
  rw [hlen] at key
  simp only [List.length_nil, Nat.mul_zero, Nat.zero_mul, Nat.add_zero] at key
  have hmul : rankings.length * rankings.length =
      rankings.length * (rankings.length - 1) + rankings.length := by
    cases hn : rankings.length with
    | zero => simp
    | succ k => rw [Nat.succ_sub_one, Nat.mul_succ]
  rw [hmul] at key
  have h2L : 2 * (pairPayments S [] (sortByPosition rankings)).length =
      rankings.length * (rankings.length - 1) := Nat.add_right_cancel key
  rw [← h2L, Nat.mul_div_cancel_left _ (by norm_num)]

/-- Every record emitted by the settlement loop carries the stake and goes
from a strictly worse-positioned entry to a strictly better-positioned
one, provided the full working list is strictly increasing by position. -/
theorem pairPayments_mem (amt : ℚ) :
    ∀ (l seen : List RankEntry),
      (seen ++ l).Pairwise (fun a b => a.position < b.position) →
      ∀ rec ∈ pairPayments amt seen l,
        rec.amount = amt ∧
        ∃ a ∈ seen ++ l, ∃ b ∈ seen ++ l,
          rec.from_player_id = b.player_id ∧ rec.to_player_id = a.player_id ∧
          a.position < b.position := by
  intro l
  induction l with
  | nil =>
    intro seen _ rec hrec
    simp [pairPayments] at hrec
  | cons p rest ih =>
    intro seen hpw rec hrec
    simp only [pairPayments, List.mem_append, List.mem_map] at hrec
    rcases hrec with ⟨r, hr, rfl⟩ | hrec
    · refine ⟨rfl, r, ?_, p, ?_, rfl, rfl, ?_⟩
      · exact List.mem_append.mpr (Or.inl hr)
      · exact List.mem_append.mpr (Or.inr (List.mem_cons_self p rest))
      · rw [List.pairwise_append] at hpw
        exact hpw.2.2 r hr p (List.mem_cons_self p rest)
    · have hpw2 : ((seen ++ [p]) ++ rest).Pairwise
          (fun a b => a.position < b.position) := by
        simpa [List.append_assoc] using hpw
      have hres := ih (seen ++ [p]) hpw2 rec hrec
      simpa [List.append_assoc] using hres

/-- The sorted working list is a permutation of the input. -/
theorem sortByPosition_perm (rankings : List RankEntry) :
    (sortByPosition rankings).Perm rankings :=
  List.perm_insertionSort _ rankings

/-- With pairwise-distinct positions, sorting yields a strictly increasing
list. -/
theorem sortByPosition_strict (rankings : List RankEntry)
    (hdist : (rankings.map (fun r => r.position)).Nodup) :
    (sortByPosition rankings).Pairwise (fun a b => a.position < b.position) := by
  have hs : (sortByPosition rankings).Pairwise (fun a b => a.position ≤ b.position) :=
    List.sorted_insertionSort _ rankings
  have hnd : ((sortByPosition rankings).map (fun r => r.position)).Nodup :=
    (((sortByPosition_perm rankings).map _).nodup_iff).mpr hdist
  rw [List.Nodup, List.pairwise_map] at hnd
  exact (hs.and hnd).imp (fun h => lt_of_le_of_ne h.1 h.2)

/-- Shifting the accumulator out of an additive fold. -/
theorem foldl_shift {α : Type} (f : ℚ → α → ℚ) (hf : ∀ b r, f b r = b + f 0 r) :
    ∀ (l : List α) (b : ℚ), l.foldl f b = b + l.foldl f 0 := by
  intro l
  induction l with
  | nil => intro b; simp
  | cons r t ih =>
    intro b
    rw [List.foldl_cons, List.foldl_cons, ih (f b r), ih (f 0 r), hf b r]
    ring

/-- One step of calculatePlayerBalance, as an explicit contribution. -/
theorem calculatePlayerBalance_cons (pid : String) (u : Bool) (r : PayRec)
    (ps : List PayRec) :
    calculatePlayerBalance pid (r :: ps) u =
      (if u && truthy r.is_paid then 0 else
        (if r.to_player_id = pid then r.amount else 0) -
        (if r.from_player_id = pid then r.amount else 0)) +
      calculatePlayerBalance pid ps u := by
  rw [calculatePlayerBalance, calculatePlayerBalance, List.foldl_cons]
  rw [foldl_shift]
  · congr 1
    by_cases h1 : u && truthy r.is_paid
    · simp [h1]
    · by_cases h2 : r.to_player_id = pid <;> by_cases h3 : r.from_player_id = pid <;>
        simp [h1, h2, h3]
  · intro b rec
    by_cases h1 : u && truthy rec.is_paid
    · simp [h1]
    · by_cases h2 : rec.to_player_id = pid <;> by_cases h3 : rec.from_player_id = pid <;>
        (simp [h1, h2, h3]; try ring)

/-- Summed over any player set containing every payer and payee, the
per-player balances of a record list cancel to zero. -/
theorem sum_balances_zero (P : Finset String) :
    ∀ (ps : List PayRec),
      (∀ rec ∈ ps, rec.from_player_id ∈ P ∧ rec.to_player_id ∈ P) →
      ∑ p ∈ P, calculatePlayerBalance p ps false = 0 := by
  intro ps
  induction ps with
  | nil =>
    intro _
    simp [calculatePlayerBalance]
  | cons r t ih =>
    intro h
    have hr := h r (List.mem_cons_self r t)
    have ht : ∀ rec ∈ t, rec.from_player_id ∈ P ∧ rec.to_player_id ∈ P :=
      fun rec hrec => h rec (List.mem_cons_of_mem r hrec)
    have hcons : ∀ p ∈ P, calculatePlayerBalance p (r :: t) false =
        ((if r.to_player_id = p then r.amount else 0) -
          (if r.from_player_id = p then r.amount else 0)) +
        calculatePlayerBalance p t false := by
      intro p _
      rw [calculatePlayerBalance_cons]
      simp
    rw [Finset.sum_congr rfl hcons, Finset.sum_add_distrib, ih ht, add_zero,
      Finset.sum_sub_distrib, Finset.sum_ite_eq, Finset.sum_ite_eq]
    simp [hr.1, hr.2]

/-- C1: for a ranking list of N ≥ 2 entries with pairwise-distinct
positions and a positive stake S, calculatePayments returns exactly
N·(N−1)/2 records; every record carries amount S from a worse-positioned
entry to a better-positioned one; and over any player set covering the
ranked players, the signed per-player balances of the whole record set
sum to zero (the record set is zero-sum). -/
theorem calculatePayments_count_shape_zero_sum
    (rankings : List RankEntry) (S : ℚ) (P : Finset String)
    (hN : 2 ≤ rankings.length) (hS : 0 < S)
    (hdist : (rankings.map (fun r => r.position)).Nodup)
    (hP : ∀ r ∈ rankings, r.player_id ∈ P) :
    (calculatePayments rankings S).length =
        rankings.length * (rankings.length - 1) / 2 ∧
    (∀ rec ∈ calculatePayments rankings S,
        rec.amount = S ∧
        ∃ a ∈ rankings, ∃ b ∈ rankings,
          rec.from_player_id = b.player_id ∧ rec.to_player_id = a.player_id ∧
          a.position < b.position) ∧
    ∑ p ∈ P, calculatePlayerBalance p (calculatePayments rankings S) false = 0 := by
  have hcond : ¬ (rankings.length < 2 ∨ S ≤ 0) := by
    push_neg
    exact ⟨hN, hS⟩
  have hmem : ∀ rec ∈ calculatePayments rankings S,
      rec.amount = S ∧ ∃ a ∈ rankings, ∃ b ∈ rankings,
        rec.from_player_id = b.player_id ∧ rec.to_player_id = a.player_id ∧
        a.position < b.position := by
    intro rec hrec
    rw [calculatePayments, if_neg hcond] at hrec
    have hpw : (([] : List RankEntry) ++ sortByPosition rankings).Pairwise
        (fun a b => a.position < b.position) := by
      simpa using sortByPosition_strict rankings hdist
    have hres := pairPayments_mem S (sortByPosition rankings) [] hpw rec hrec
    simp only [List.nil_append] at hres
    obtain ⟨hamt, a, ha, b, hb, h1, h2, h3⟩ := hres
    exact ⟨hamt, a, (sortByPosition_perm rankings).mem_iff.mp ha,
      b, (sortByPosition_perm rankings).mem_iff.mp hb, h1, h2, h3⟩
  refine ⟨calculatePayments_length_eq rankings S hN hS, hmem, ?_⟩
  apply sum_balances_zero
  intro rec hrec
  obtain ⟨_, a, ha, b, hb, h1, h2, _⟩ := hmem rec hrec
  constructor
  · rw [h1]; exact hP b hb
  · rw [h2]; exact hP a ha

/-- Witness for C1 on two players at stake 1. -/
theorem calculatePayments_count_shape_zero_sum_witness :
    (calculatePayments [⟨"a", 1⟩, ⟨"b", 2⟩] 1).length = 2 * (2 - 1) / 2 ∧
    (∀ rec ∈ calculatePayments [⟨"a", 1⟩, ⟨"b", 2⟩] 1,
        rec.amount = 1 ∧
        ∃ x ∈ ([⟨"a", 1⟩, ⟨"b", 2⟩] : List RankEntry),
          ∃ y ∈ ([⟨"a", 1⟩, ⟨"b", 2⟩] : List RankEntry),
          rec.from_player_id = y.player_id ∧ rec.to_player_id = x.player_id ∧
          x.position < y.position) ∧
    ∑ p ∈ ({"a", "b"} : Finset String),
      calculatePlayerBalance p (calculatePayments [⟨"a", 1⟩, ⟨"b", 2⟩] 1) false = 0 :=
  calculatePayments_count_shape_zero_sum [⟨"a", 1⟩, ⟨"b", 2⟩] 1 {"a", "b"}
    (by decide) one_pos (by decide) (by decide)

/-! ## C7: calculatePayments is order-independent -/

/-- C7: for two ranking lists that are permutations of each other with
pairwise-distinct positions, calculatePayments returns the same record
list for every stake, because the function re-sorts by position before
pairing. -/
theorem calculatePayments_perm_invariant (r1 r2 : List RankEntry) (S : ℚ)
    (hperm : r1.Perm r2)
    (hdist : (r1.map (fun r => r.position)).Nodup) :
    calculatePayments r1 S = calculatePayments r2 S := by
  have hlen : r1.length = r2.length := hperm.length_eq
  by_cases hc : r1.length < 2 ∨ S ≤ 0
  · have hc2 : r2.length < 2 ∨ S ≤ 0 := by
      rcases hc with h | h
      · exact Or.inl (hlen ▸ h)
      · exact Or.inr h
    rw [calculatePayments, calculatePayments, if_pos hc, if_pos hc2]
  · have hc2 : ¬ (r2.length < 2 ∨ S ≤ 0) := by
      rcases (not_or.mp hc) with ⟨h1, h2⟩
      exact not_or.mpr ⟨hlen ▸ h1, h2⟩
    have hdist2 : (r2.map (fun r => r.position)).Nodup :=
      ((hperm.map _).nodup_iff).mp hdist
    have hsorted : sortByPosition r1 = sortByPosition r2 := by
      have hp : (sortByPosition r1).Perm (sortByPosition r2) :=
        ((sortByPosition_perm r1).trans hperm).trans (sortByPosition_perm r2).symm
      exact List.eq_of_perm_of_sorted hp
        (sortByPosition_strict r1 hdist) (sortByPosition_strict r2 hdist2)
    rw [calculatePayments, calculatePayments, if_neg hc, if_neg hc2, hsorted]

/-- Witness for C7 on a two-entry list and its reversal. -/
theorem calculatePayments_perm_invariant_witness :
    calculatePayments [⟨"a", 1⟩, ⟨"b", 2⟩] 7 = calculatePayments [⟨"b", 2⟩, ⟨"a", 1⟩] 7 :=
  calculatePayments_perm_invariant [⟨"a", 1⟩, ⟨"b", 2⟩] [⟨"b", 2⟩, ⟨"a", 1⟩] 7
    (by decide) (by decide)

/-! ## C5: map lemmas for the balance-building loop -/

/-- Sum of the stored balances of an association list. -/
def valuesSum (m : List (String × ℚ)) : ℚ := (m.map Prod.snd).sum

/-- Reading a consed association list. -/
theorem mapGetOr0_cons (p : String × ℚ) (t : List (String × ℚ)) (k : String) :
    mapGetOr0 (p :: t) k = if p.1 = k then p.2 else mapGetOr0 t k := by
  rw [mapGetOr0, List.find?_cons]
  by_cases hp : p.1 = k
  · simp [hp]
  · simp [hp, mapGetOr0]

/-- A key absent from the list reads as 0. -/
theorem mapGetOr0_eq_zero_of_not_mem (k : String) :
    ∀ (m : List (String × ℚ)), m.any (fun p => p.1 = k) = false →
      mapGetOr0 m k = 0 := by
  intro m
  induction m with
  | nil => intro _; rfl
  | cons p t ih =>
    intro h
    simp only [List.any_cons, Bool.or_eq_false_iff] at h
    rw [mapGetOr0_cons, if_neg (by simpa using h.1)]
    exact ih h.2

/-- Reading the updated key from the in-place-replacement branch. -/
theorem mapGetOr0_replace_self (k : String) (v : ℚ) :
    ∀ (m : List (String × ℚ)), m.any (fun p => p.1 = k) = true →
      mapGetOr0 (m.map (fun p => if p.1 = k then (k, v) else p)) k = v := by
  intro m
  induction m with
  | nil => intro h; simp at h
  | cons p t ih =>
    intro h
    by_cases hp : p.1 = k
    · rw [List.map_cons, if_pos hp, mapGetOr0_cons, if_pos rfl]
    · rw [List.map_cons, if_neg hp, mapGetOr0_cons, if_neg hp]
      apply ih
      simpa [List.any_cons, hp] using h

/-- Reading the appended key from the append branch. -/
theorem mapGetOr0_append_self (k : String) (v : ℚ) :
    ∀ (m : List (String × ℚ)), m.any (fun p => p.1 = k) = false →
      mapGetOr0 (m ++ [(k, v)]) k = v := by
  intro m
  induction m with
  | nil => intro _; rw [List.nil_append, mapGetOr0_cons, if_pos rfl]
  | cons p t ih =>
    intro h
    simp only [List.any_cons, Bool.or_eq_false_iff] at h
    rw [List.cons_append, mapGetOr0_cons, if_neg (by simpa using h.1)]
    exact ih h.2

/-- Setting a key then reading it back gives the stored value. -/
theorem mapGetOr0_mapSet_self (m : List (String × ℚ)) (k : String) (v : ℚ) :
    mapGetOr0 (mapSet m k v) k = v := by
  rw [mapSet]
  by_cases hany : m.any (fun p => p.1 = k)
  · rw [if_pos hany]
    exact mapGetOr0_replace_self k v m hany
  · rw [if_neg hany]
    exact mapGetOr0_append_self k v m (Bool.eq_false_iff.mpr hany)

/-- Reading another key from the in-place-replacement branch. -/
theorem mapGetOr0_replace_other (k : String) (v : ℚ) (k' : String) (hne : k' ≠ k) :
    ∀ (m : List (String × ℚ)),
      mapGetOr0 (m.map (fun p => if p.1 = k then (k, v) else p)) k' = mapGetOr0 m k' := by
  intro m
  induction m with
  | nil => rfl
  | cons p t ih =>
    by_cases hp : p.1 = k
    · rw [List.map_cons, if_pos hp, mapGetOr0_cons, mapGetOr0_cons,
        if_neg (fun hh => hne hh.symm), if_neg (fun hh => hne (hp.symm.trans hh).symm)]
      exact ih
    · rw [List.map_cons, if_neg hp, mapGetOr0_cons, mapGetOr0_cons]
      by_cases hpk : p.1 = k'
      · rw [if_pos hpk, if_pos hpk]
      · rw [if_neg hpk, if_neg hpk]
        exact ih

/-- Reading another key from the append branch. -/
theorem mapGetOr0_append_other (k : String) (v : ℚ) (k' : String) (hne : k' ≠ k) :
    ∀ (m : List (String × ℚ)),
      mapGetOr0 (m ++ [(k, v)]) k' = mapGetOr0 m k' := by
  intro m
  induction m with
  | nil =>
    rw [List.nil_append, mapGetOr0_cons, if_neg (fun hh => hne hh.symm)]
  | cons p t ih =>
    rw [List.cons_append, mapGetOr0_cons, mapGetOr0_cons]
    by_cases hpk : p.1 = k'
    · rw [if_pos hpk, if_pos hpk]
    · rw [if_neg hpk, if_neg hpk]
      exact ih

/-- Setting one key leaves every other key unchanged. -/
theorem mapGetOr0_mapSet_other (m : List (String × ℚ)) (k : String) (v : ℚ)
    (k' : String) (hne : k' ≠ k) :
    mapGetOr0 (mapSet m k v) k' = mapGetOr0 m k' := by
  rw [mapSet]
  by_cases hany : m.any (fun p => p.1 = k)
  · rw [if_pos hany]
    exact mapGetOr0_replace_other k v k' hne m
  · rw [if_neg hany]
    exact mapGetOr0_append_other k v k' hne m

/-- The in-place-replacement branch does not change the key list. -/
theorem keys_replace (k : String) (v : ℚ) :
    ∀ (m : List (String × ℚ)),
      (m.map (fun p => if p.1 = k then (k, v) else p)).map Prod.fst =
        m.map Prod.fst := by
  intro m
  induction m with
  | nil => rfl
  | cons p t ih =>
    rw [List.map_cons, List.map_cons, List.map_cons]
    by_cases hp : p.1 = k
    · rw [if_pos hp, ih]
      simp [hp]
    · rw [if_neg hp, ih]

/-- mapSet preserves key distinctness. -/
theorem keys_nodup_mapSet (m : List (String × ℚ)) (k : String) (v : ℚ)
    (h : (m.map Prod.fst).Nodup) :
    ((mapSet m k v).map Prod.fst).Nodup := by
  rw [mapSet]
  by_cases hany : m.any (fun p => p.1 = k)
  · rw [if_pos hany, keys_replace]
    exact h
  · rw [if_neg hany]
    have hk : k ∉ m.map Prod.fst := by
      intro hmem
      rcases List.mem_map.mp hmem with ⟨q, hq, hqk⟩
      have hq0 := List.any_eq_false.mp (Bool.eq_false_iff.mpr hany) q hq
      simp [hqk] at hq0
    simp [List.nodup_append, h, hk]

/-- valuesSum over a consed list. -/
theorem valuesSum_cons (p : String × ℚ) (t : List (String × ℚ)) :
    valuesSum (p :: t) = p.2 + valuesSum t := by
  simp [valuesSum]

/-- valuesSum over the in-place-replacement branch. -/
theorem valuesSum_replace (k : String) (v : ℚ) :
    ∀ (m : List (String × ℚ)), (m.map Prod.fst).Nodup →
      m.any (fun p => p.1 = k) = true →
      valuesSum (m.map (fun p => if p.1 = k then (k, v) else p)) =
        valuesSum m - mapGetOr0 m k + v := by
  intro m
  induction m with
  | nil => intro _ h; simp at h
  | cons p t ih =>
    intro hnd h
    rw [List.map_cons] at hnd
    rw [List.nodup_cons] at hnd
    rw [List.map_cons]
    by_cases hp : p.1 = k
    · rw [if_pos hp]
      have htk : t.map (fun q => if q.1 = k then (k, v) else q) = t := by
        have hcong : ∀ q ∈ t, (if q.1 = k then (k, v) else q) = q := by
          intro q hq
          rw [if_neg]
          intro hqk
          apply hnd.1
          rw [hp, ← hqk]
          exact List.mem_map_of_mem Prod.fst hq
        rw [List.map_congr_left hcong]
        simp
      rw [htk, valuesSum_cons, valuesSum_cons, mapGetOr0_cons, if_pos hp]
      ring
    · rw [if_neg hp, valuesSum_cons, valuesSum_cons, mapGetOr0_cons, if_neg hp]
      rw [ih hnd.2 (by simpa [List.any_cons, hp] using h)]
      ring

/-- valuesSum over the append branch. -/
theorem valuesSum_append_single (m : List (String × ℚ)) (k : String) (v : ℚ) :
    valuesSum (m ++ [(k, v)]) = valuesSum m + v := by
  simp [valuesSum]

/-- mapSet changes valuesSum by the difference of new and old value. -/
theorem valuesSum_mapSet (m : List (String × ℚ)) (k : String) (v : ℚ)
    (h : (m.map Prod.fst).Nodup) :
    valuesSum (mapSet m k v) = valuesSum m - mapGetOr0 m k + v := by
  rw [mapSet]
  by_cases hany : m.any (fun p => p.1 = k)
  · rw [if_pos hany]
    exact valuesSum_replace k v m h hany
  · rw [if_neg hany]
    rw [valuesSum_append_single,
      mapGetOr0_eq_zero_of_not_mem k m (Bool.eq_false_iff.mpr hany)]
    ring

/-- One step of the balance-building loop: key distinctness is preserved,
the total of all balances is unchanged, and each player's entry moves by
that player's signed contribution of the record. -/
theorem balanceStep_props (m : List (String × ℚ)) (r : PayRec)
    (h : (m.map Prod.fst).Nodup) :
    ((balanceStep m r).map Prod.fst).Nodup ∧
    valuesSum (balanceStep m r) = valuesSum m ∧
    ∀ pid, mapGetOr0 (balanceStep m r) pid =
      mapGetOr0 m pid +
        (if truthy r.is_paid then 0 else
          (if r.to_player_id = pid then r.amount else 0) -
          (if r.from_player_id = pid then r.amount else 0)) := by
  rw [balanceStep]
  by_cases hpaid : truthy r.is_paid
  · rw [if_pos hpaid]
    refine ⟨h, rfl, ?_⟩
    intro pid
    rw [if_pos hpaid]
    ring
  · rw [if_neg hpaid]
    have h1 : ((mapSet m r.from_player_id
        (mapGetOr0 m r.from_player_id - r.amount)).map Prod.fst).Nodup :=
      keys_nodup_mapSet m _ _ h
    refine ⟨keys_nodup_mapSet _ _ _ h1, ?_, ?_⟩
    · rw [valuesSum_mapSet _ _ _ h1, valuesSum_mapSet _ _ _ h]
      ring
    · intro pid
      rw [if_neg hpaid]
      by_cases hto : r.to_player_id = pid
      · rw [if_pos hto, hto, mapGetOr0_mapSet_self]
        by_cases hfrom : r.from_player_id = pid
        · rw [if_pos hfrom, hfrom, mapGetOr0_mapSet_self]
          ring
        · rw [if_neg hfrom,
            mapGetOr0_mapSet_other _ _ _ pid (fun hh => hfrom hh.symm)]
          ring
      · rw [if_neg hto, mapGetOr0_mapSet_other _ _ _ pid (fun hh => hto hh.symm)]
        by_cases hfrom : r.from_player_id = pid
        · rw [if_pos hfrom, hfrom, mapGetOr0_mapSet_self]
          ring
        · rw [if_neg hfrom,
            mapGetOr0_mapSet_other _ _ _ pid (fun hh => hfrom hh.symm)]
          ring

/-- Folding the balance-building loop from any accumulator. -/
theorem buildBalances_fold (ps : List PayRec) :
    ∀ (m : List (String × ℚ)), (m.map Prod.fst).Nodup →
      ((ps.foldl balanceStep m).map Prod.fst).Nodup ∧
      valuesSum (ps.foldl balanceStep m) = valuesSum m ∧
      ∀ pid, mapGetOr0 (ps.foldl balanceStep m) pid =
        mapGetOr0 m pid + calculatePlayerBalance pid ps true := by
  induction ps with
  | nil =>
    intro m h
    refine ⟨h, rfl, ?_⟩
    intro pid
    show mapGetOr0 m pid = mapGetOr0 m pid + calculatePlayerBalance pid [] true
    rw [calculatePlayerBalance]
    simp
  | cons r t ih =>
    intro m h
    obtain ⟨s1, s2, s3⟩ := balanceStep_props m r h
    obtain ⟨g1, g2, g3⟩ := ih (balanceStep m r) s1
    rw [List.foldl_cons]
    refine ⟨g1, g2.trans s2, ?_⟩
    intro pid
    rw [g3 pid, s3 pid, calculatePlayerBalance_cons]
    simp only [Bool.true_and]
    ring

/-- The balances map built by calculateSimplifiedBalances has distinct
keys, total zero, and stores exactly each player's unpaid net balance. -/
theorem buildBalances_props (ps : List PayRec) :
    ((buildBalances ps).map Prod.fst).Nodup ∧
    valuesSum (buildBalances ps) = 0 ∧
    ∀ pid, mapGetOr0 (buildBalances ps) pid = calculatePlayerBalance pid ps true := by
  obtain ⟨h1, h2, h3⟩ := buildBalances_fold ps [] (by simp)
  refine ⟨h1, ?_, ?_⟩
  · rw [buildBalances, h2]
    rfl
  · intro pid
    rw [buildBalances, h3 pid]
    show (0 : ℚ) + _ = _
    ring

/-- Total amount attached to a key in an association list (summing
duplicates, though the lists used have distinct keys). -/
def keyAmount (l : List (String × ℚ)) (k : String) : ℚ :=
  ((l.filter (fun p => p.1 = k)).map Prod.snd).sum

/-- keyAmount over a consed list. -/
theorem keyAmount_cons (p : String × ℚ) (t : List (String × ℚ)) (k : String) :
    keyAmount (p :: t) k = (if p.1 = k then p.2 else 0) + keyAmount t k := by
  by_cases hp : p.1 = k <;> simp [keyAmount, List.filter_cons, hp]

/-- keyAmount only depends on the multiset of entries. -/
theorem keyAmount_perm {l1 l2 : List (String × ℚ)} (h : l1.Perm l2) (k : String) :
    keyAmount l1 k = keyAmount l2 k :=
  ((h.filter _).map _).sum_eq

/-- valuesSum only depends on the multiset of entries. -/
theorem valuesSum_perm {l1 l2 : List (String × ℚ)} (h : l1.Perm l2) :
    valuesSum l1 = valuesSum l2 :=
  (h.map _).sum_eq

/-- A list key absent from the key list answers any-false. -/
theorem any_key_eq_false_of_not_mem (t : List (String × ℚ)) (k : String)
    (h : k ∉ t.map Prod.fst) : t.any (fun p => p.1 = k) = false := by
  rw [List.any_eq_false]
  intro q hq
  simp only [decide_eq_true_eq]
  intro hqk
  exact h (hqk ▸ List.mem_map_of_mem Prod.fst hq)

/-- The debtor list stores, per key, the negated negative balance. -/
theorem keyAmount_debtors (k : String) :
    ∀ (m : List (String × ℚ)), (m.map Prod.fst).Nodup →
      keyAmount ((m.filter (fun p => p.2 < 0)).map (fun p => (p.1, |p.2|))) k =
        if mapGetOr0 m k < 0 then - mapGetOr0 m k else 0 := by
  intro m
  induction m with
  | nil =>
    intro _
    show (0 : ℚ) = if (0 : ℚ) < 0 then -(0 : ℚ) else 0
    simp
  | cons p t ih =>
    intro hnd
    rw [List.map_cons, List.nodup_cons] at hnd
    rw [mapGetOr0_cons]
    by_cases hpk : p.1 = k
    · rw [if_pos hpk]
      have htail : keyAmount
          ((t.filter (fun q => q.2 < 0)).map (fun q => (q.1, |q.2|))) k = 0 := by
        rw [ih hnd.2, mapGetOr0_eq_zero_of_not_mem k t
          (any_key_eq_false_of_not_mem t k (hpk ▸ hnd.1))]
        simp
      by_cases hneg : p.2 < 0
      · rw [List.filter_cons_of_pos (by simpa using hneg), List.map_cons,
          keyAmount_cons, if_pos hpk, htail, if_pos hneg]
        simp [abs_of_neg hneg]
      · rw [List.filter_cons_of_neg (by simpa using hneg), htail, if_neg hneg]
    · rw [if_neg hpk]
      by_cases hneg : p.2 < 0
      · rw [List.filter_cons_of_pos (by simpa using hneg), List.map_cons,
          keyAmount_cons, if_neg hpk, ih hnd.2, zero_add]
      · rw [List.filter_cons_of_neg (by simpa using hneg), ih hnd.2]

/-- The creditor list stores, per key, the positive balance. -/
theorem keyAmount_creditors (k : String) :
    ∀ (m : List (String × ℚ)), (m.map Prod.fst).Nodup →
      keyAmount (m.filter (fun p => 0 < p.2)) k =
        if 0 < mapGetOr0 m k then mapGetOr0 m k else 0 := by
  intro m
  induction m with
  | nil =>
    intro _
    show (0 : ℚ) = if (0 : ℚ) < 0 then (0 : ℚ) else 0
    simp
  | cons p t ih =>
    intro hnd
    rw [List.map_cons, List.nodup_cons] at hnd
    rw [mapGetOr0_cons]
    by_cases hpk : p.1 = k
    · rw [if_pos hpk]
      have htail : keyAmount (t.filter (fun q => 0 < q.2)) k = 0 := by
        rw [ih hnd.2, mapGetOr0_eq_zero_of_not_mem k t
          (any_key_eq_false_of_not_mem t k (hpk ▸ hnd.1))]
        simp
      by_cases hpos : 0 < p.2
      · rw [List.filter_cons_of_pos (by simpa using hpos), keyAmount_cons,
          if_pos hpk, htail, if_pos hpos, add_zero]
      · rw [List.filter_cons_of_neg (by simpa using hpos), htail, if_neg hpos]
    · rw [if_neg hpk]
      by_cases hpos : 0 < p.2
      · rw [List.filter_cons_of_pos (by simpa using hpos), keyAmount_cons,
          if_neg hpk, ih hnd.2, zero_add]
      · rw [List.filter_cons_of_neg (by simpa using hpos), ih hnd.2]

/-- valuesSum splits into its negative-entry and positive-entry parts. -/
theorem valuesSum_split (m : List (String × ℚ)) :
    valuesSum m = valuesSum (m.filter (fun p => p.2 < 0)) +
      valuesSum (m.filter (fun p => 0 < p.2)) := by
  induction m with
  | nil => simp [valuesSum]
  | cons p t ih =>
    rcases lt_trichotomy p.2 0 with h | h | h
    · rw [valuesSum_cons, List.filter_cons_of_pos (by simpa using h),
        List.filter_cons_of_neg (by simp [not_lt.mpr (le_of_lt h)]),
        valuesSum_cons, ih]
      ring
    · rw [valuesSum_cons, List.filter_cons_of_neg (by simp [h]),
        List.filter_cons_of_neg (by simp [h]), ih, h]
      ring
    · rw [valuesSum_cons, List.filter_cons_of_neg (by simp [not_lt.mpr (le_of_lt h)]),
        List.filter_cons_of_pos (by simpa using h), valuesSum_cons, ih]
      ring

/-- Negating a list of negative balances. -/
theorem valuesSum_absmap (l : List (String × ℚ)) (h : ∀ p ∈ l, p.2 < 0) :
    valuesSum (l.map (fun p => (p.1, |p.2|))) = - valuesSum l := by
  induction l with
  | nil => simp [valuesSum]
  | cons p t ih =>
    rw [List.map_cons, valuesSum_cons, valuesSum_cons,
      ih (fun q hq => h q (List.mem_cons_of_mem p hq))]
    show |p.2| + _ = _
    rw [abs_of_neg (h p (List.mem_cons_self p t))]
    ring

/-- Counting nonzero entries as negatives plus positives. -/
theorem length_filter_sign (m : List (String × ℚ)) :
    (m.filter (fun p => p.2 ≠ 0)).length =
      (m.filter (fun p => p.2 < 0)).length +
        (m.filter (fun p => 0 < p.2)).length := by
  induction m with
  | nil => rfl
  | cons p t ih =>
    rcases lt_trichotomy p.2 0 with h | h | h
    · rw [List.filter_cons_of_pos (by simp [ne_of_lt h]),
        List.filter_cons_of_pos (by simpa using h),
        List.filter_cons_of_neg (by simp [not_lt.mpr (le_of_lt h)]),
        List.length_cons, List.length_cons, ih]
      omega
    · rw [List.filter_cons_of_neg (by simp [h]),
        List.filter_cons_of_neg (by simp [h]),
        List.filter_cons_of_neg (by simp [h])]
      exact ih
    · rw [List.filter_cons_of_pos (by simp [ne_of_gt h]),
        List.filter_cons_of_neg (by simp [not_lt.mpr (le_of_lt h)]),
        List.filter_cons_of_pos (by simpa using h),
        List.length_cons, List.length_cons, ih]
      omega

/-- Total paid by a player over a simplified transaction list. -/
def paidBy (pid : String) (ts : List SimplifiedPayment) : ℚ :=
  ((ts.filter (fun t => t.fromPlayerId = pid)).map (fun t => t.amount)).sum

/-- Total received by a player over a simplified transaction list. -/
def recvBy (pid : String) (ts : List SimplifiedPayment) : ℚ :=
  ((ts.filter (fun t => t.toPlayerId = pid)).map (fun t => t.amount)).sum

/-- paidBy over a consed list. -/
theorem paidBy_cons (pid : String) (t : SimplifiedPayment)
    (ts : List SimplifiedPayment) :
    paidBy pid (t :: ts) = (if t.fromPlayerId = pid then t.amount else 0) +
      paidBy pid ts := by
  by_cases hp : t.fromPlayerId = pid <;> simp [paidBy, List.filter_cons, hp]

/-- recvBy over a consed list. -/
theorem recvBy_cons (pid : String) (t : SimplifiedPayment)
    (ts : List SimplifiedPayment) :
    recvBy pid (t :: ts) = (if t.toPlayerId = pid then t.amount else 0) +
      recvBy pid ts := by
  by_cases hp : t.toPlayerId = pid <;> simp [recvBy, List.filter_cons, hp]

/-- A list with positive entries and zero total is empty. -/
theorem eq_nil_of_valuesSum_zero (l : List (String × ℚ))
    (hpos : ∀ x ∈ l, 0 < x.2) (hsum : valuesSum l = 0) : l = [] := by
  cases l with
  | nil => rfl
  | cons p t =>
    exfalso
    have h1 : 0 < p.2 := hpos p (List.mem_cons_self p t)
    have h2 : 0 ≤ valuesSum t := by
      apply List.sum_nonneg
      intro x hx
      rcases List.mem_map.mp hx with ⟨q, hq, rfl⟩
      exact le_of_lt (hpos q (List.mem_cons_of_mem p hq))
    rw [valuesSum_cons] at hsum
    linarith

/-- Correctness of the greedy matching loop: with positive debtor and
creditor amounts and equal totals, the produced transactions make every
player pay exactly their total debtor amount and receive exactly their
total creditor amount. -/
theorem greedyMatch_flows :
    ∀ (n : ℕ) (ds cs : List (String × ℚ)), ds.length + cs.length ≤ n →
      (∀ x ∈ ds, 0 < x.2) → (∀ x ∈ cs, 0 < x.2) →
      valuesSum ds = valuesSum cs →
      ∀ pid, paidBy pid (greedyMatch ds cs) = keyAmount ds pid ∧
        recvBy pid (greedyMatch ds cs) = keyAmount cs pid := by
  intro n
  induction n with
  | zero =>
    intro ds cs hlen hd hc hsum pid
    have hds : ds = [] := List.eq_nil_of_length_eq_zero (by omega)
    have hcs : cs = [] := List.eq_nil_of_length_eq_zero (by omega)
    subst hds
    subst hcs
    constructor <;> simp [greedyMatch, paidBy, recvBy, keyAmount]
  | succ n ih =>
    intro ds cs hlen hd hc hsum pid
    rcases ds with _ | ⟨⟨d, da⟩, ds'⟩
    · have hcs : cs = [] := eq_nil_of_valuesSum_zero cs hc (by rw [← hsum]; rfl)
      subst hcs
      constructor <;> simp [greedyMatch, paidBy, recvBy, keyAmount]
    · rcases cs with _ | ⟨⟨c, ca⟩, cs'⟩
      · have hds : (d, da) :: ds' = [] :=
          eq_nil_of_valuesSum_zero _ hd (by rw [hsum]; rfl)
        simp at hds
      · have hda : 0 < da := hd (d, da) (List.mem_cons_self _ _)
        have hca : 0 < ca := hc (c, ca) (List.mem_cons_self _ _)
        have hd' : ∀ x ∈ ds', 0 < x.2 :=
          fun x hx => hd x (List.mem_cons_of_mem _ hx)
        have hc' : ∀ x ∈ cs', 0 < x.2 :=
          fun x hx => hc x (List.mem_cons_of_mem _ hx)
        have hamt : 0 < min da ca := lt_min hda hca
        rw [valuesSum_cons, valuesSum_cons] at hsum
        simp only [greedyMatch]
        rw [if_pos hamt]
        by_cases h1 : da ≤ ca
        · by_cases h2 : ca ≤ da
          · have heq : da = ca := le_antisymm h1 h2
            have hrec := ih ds' cs' (by simp at hlen ⊢; omega) hd' hc'
              (by linarith) pid
            rw [if_pos h1, if_pos h2, List.singleton_append, paidBy_cons,
              recvBy_cons, hrec.1, hrec.2, keyAmount_cons, keyAmount_cons]
            constructor
            · show (if d = pid then min da ca else 0) + _ =
                (if d = pid then da else 0) + _
              rw [min_eq_left h1]
            · show (if c = pid then min da ca else 0) + _ =
                (if c = pid then ca else 0) + _
              rw [min_eq_left h1, heq]
          · have hlt : da < ca := not_le.mp h2
            have hrec := ih ds' ((c, ca - min da ca) :: cs')
              (by simp at hlen ⊢; omega)
              hd'
              (by
                intro x hx
                rcases List.mem_cons.mp hx with rfl | hx
                · rw [min_eq_left h1]
                  simpa using hlt
                · exact hc' x hx)
              (by
                rw [valuesSum_cons, min_eq_left h1]
                show valuesSum ds' = ca - da + valuesSum cs'
                linarith) pid
            rw [if_pos h1, if_neg h2, List.singleton_append, paidBy_cons,
              recvBy_cons, hrec.1, hrec.2, keyAmount_cons, keyAmount_cons,
              keyAmount_cons]
            constructor
            · show (if d = pid then min da ca else 0) + _ =
                (if d = pid then da else 0) + _
              rw [min_eq_left h1]
            · show (if c = pid then min da ca else 0) +
                ((if c = pid then ca - min da ca else 0) + keyAmount cs' pid) =
                (if c = pid then ca else 0) + keyAmount cs' pid
              by_cases hcp : c = pid
              · rw [if_pos hcp, if_pos hcp, if_pos hcp]
                ring
              · rw [if_neg hcp, if_neg hcp, if_neg hcp]
                ring
        · have hlt : ca < da := not_le.mp h1
          have hrec := ih ((d, da - min da ca) :: ds') cs'
            (by simp at hlen ⊢; omega)
            (by
              intro x hx
              rcases List.mem_cons.mp hx with rfl | hx
              · rw [min_eq_right (le_of_lt hlt)]
                simpa using hlt
              · exact hd' x hx)
            hc'
            (by
              rw [valuesSum_cons, min_eq_right (le_of_lt hlt)]
              show da - ca + valuesSum ds' = valuesSum cs'
              linarith) pid
          rw [if_neg h1, List.singleton_append, paidBy_cons, recvBy_cons,
            hrec.1, hrec.2, keyAmount_cons, keyAmount_cons, keyAmount_cons]
          constructor
          · show (if d = pid then min da ca else 0) +
              ((if d = pid then da - min da ca else 0) + keyAmount ds' pid) =
              (if d = pid then da else 0) + keyAmount ds' pid
            by_cases hdp : d = pid
            · rw [if_pos hdp, if_pos hdp, if_pos hdp]
              ring
            · rw [if_neg hdp, if_neg hdp, if_neg hdp]
              ring
          · show (if c = pid then min da ca else 0) + _ =
              (if c = pid then ca else 0) + _
            rw [min_eq_right (le_of_lt hlt)]

/-- The greedy loop emits at most debtors + creditors − 1 transactions. -/
theorem greedyMatch_length :
    ∀ (n : ℕ) (ds cs : List (String × ℚ)), ds.length + cs.length ≤ n →
      (greedyMatch ds cs).length ≤ ds.length + cs.length - 1 := by
  intro n
  induction n with
  | zero =>
    intro ds cs hlen
    have hds : ds = [] := List.eq_nil_of_length_eq_zero (by omega)
    subst hds
    simp [greedyMatch]
  | succ n ih =>
    intro ds cs hlen
    rcases ds with _ | ⟨⟨d, da⟩, ds'⟩
    · simp [greedyMatch]
    · rcases cs with _ | ⟨⟨c, ca⟩, cs'⟩
      · simp [greedyMatch]
      · simp only [greedyMatch]
        have hout : (if 0 < min da ca
            then [SimplifiedPayment.mk d c (min da ca)] else []).length ≤ 1 := by
          by_cases hamt : 0 < min da ca
          · rw [if_pos hamt]
            simp
          · rw [if_neg hamt]
            simp
        by_cases h1 : da ≤ ca
        · by_cases h2 : ca ≤ da
          · rw [if_pos h1, if_pos h2, List.length_append]
            have hrec := ih ds' cs' (by simp at hlen ⊢; omega)
            simp only [List.length_cons]
            omega
          · rw [if_pos h1, if_neg h2, List.length_append]
            have hrec := ih ds' ((c, ca - min da ca) :: cs')
              (by simp at hlen ⊢; omega)
            simp only [List.length_cons] at hrec ⊢
            omega
        · rw [if_neg h1, List.length_append]
          have hrec := ih ((d, da - min da ca) :: ds') cs'
            (by simp at hlen ⊢; omega)
          simp only [List.length_cons] at hrec ⊢
          omega

/-- The per-player balance of simplified transactions viewed as payment
records is received minus paid. -/
theorem balance_toPayRec (pid : String) :
    ∀ (ts : List SimplifiedPayment),
      calculatePlayerBalance pid (ts.map SimplifiedPayment.toPayRec) false =
        recvBy pid ts - paidBy pid ts := by
  intro ts
  induction ts with
  | nil => simp [calculatePlayerBalance, recvBy, paidBy]
  | cons t ts ih =>
    rw [List.map_cons, calculatePlayerBalance_cons, ih, paidBy_cons, recvBy_cons]
    simp only [SimplifiedPayment.toPayRec, Bool.false_and, Bool.false_eq_true,
      if_false]
    ring

/-- Core property of the debtor/creditor netting pipeline: for any
balances map with distinct keys and zero total, the greedy output pays
out each player's stored balance exactly and its size is bounded by the
number of nonzero entries minus one. -/
theorem simplified_pipeline_core (bal : List (String × ℚ))
    (hnd : (bal.map Prod.fst).Nodup) (hsum0 : valuesSum bal = 0) (pid : String) :
    calculatePlayerBalance pid
        ((greedyMatch
            (sortDescByAmount
              ((bal.filter (fun p => p.2 < 0)).map (fun p => (p.1, |p.2|))))
            (sortDescByAmount (bal.filter (fun p => 0 < p.2)))).map
          SimplifiedPayment.toPayRec) false = mapGetOr0 bal pid ∧
    (greedyMatch
        (sortDescByAmount
          ((bal.filter (fun p => p.2 < 0)).map (fun p => (p.1, |p.2|))))
        (sortDescByAmount (bal.filter (fun p => 0 < p.2)))).length ≤
      (bal.filter (fun p => p.2 ≠ 0)).length - 1 := by
  set dl := (bal.filter (fun p => p.2 < 0)).map (fun p => (p.1, |p.2|)) with hdl
  set cl := bal.filter (fun p => 0 < p.2) with hcl
  have hdlpos : ∀ x ∈ dl, 0 < x.2 := by
    intro x hx
    rw [hdl] at hx
    rcases List.mem_map.mp hx with ⟨q, hq, rfl⟩
    have hq2 : q.2 < 0 := by simpa using List.of_mem_filter hq
    simpa using abs_pos.mpr (ne_of_lt hq2)
  have hclpos : ∀ x ∈ cl, 0 < x.2 := by
    intro x hx
    rw [hcl] at hx
    simpa using List.of_mem_filter hx
  have hdperm : (sortDescByAmount dl).Perm dl := List.perm_insertionSort _ dl
  have hcperm : (sortDescByAmount cl).Perm cl := List.perm_insertionSort _ cl
  have hsums : valuesSum (sortDescByAmount dl) = valuesSum (sortDescByAmount cl) := by
    rw [valuesSum_perm hdperm, valuesSum_perm hcperm, hdl, hcl,
      valuesSum_absmap _ (fun p hp => by simpa using List.of_mem_filter hp)]
    have hsplit := valuesSum_split bal
    rw [hsum0] at hsplit
    linarith
  have hflow := greedyMatch_flows
    ((sortDescByAmount dl).length + (sortDescByAmount cl).length)
    (sortDescByAmount dl) (sortDescByAmount cl) le_rfl
    (fun x hx => hdlpos x (hdperm.mem_iff.mp hx))
    (fun x hx => hclpos x (hcperm.mem_iff.mp hx))
    hsums pid
  constructor
  · rw [balance_toPayRec, hflow.1, hflow.2, keyAmount_perm hdperm,
      keyAmount_perm hcperm, hdl, hcl, keyAmount_debtors pid bal hnd,
      keyAmount_creditors pid bal hnd]
    rcases lt_trichotomy (mapGetOr0 bal pid) 0 with h | h | h
    · rw [if_neg (by linarith), if_pos h]
      ring
    · rw [h]
      simp
    · rw [if_pos h, if_neg (by linarith)]
      ring
  · have hbound := greedyMatch_length
      ((sortDescByAmount dl).length + (sortDescByAmount cl).length)
      (sortDescByAmount dl) (sortDescByAmount cl) le_rfl
    have hld : (sortDescByAmount dl).length = dl.length := hdperm.length_eq
    have hlc : (sortDescByAmount cl).length = cl.length := hcperm.length_eq
    have hsign := length_filter_sign bal
    have hdll : dl.length = (bal.filter (fun p => p.2 < 0)).length := by
      rw [hdl, List.length_map]
    have hcll : cl.length = (bal.filter (fun p => 0 < p.2)).length := by
      rw [hcl]
    rw [hld, hlc] at hbound
    omega

/-- C5 amended: calculateSimplifiedBalances preserves every player's net
balance over the unpaid input payments exactly, and the number of output
transactions is at most the number of players with nonzero net balance
minus one.  (The claimed distinct-pair bound fails; see the
counterexample.) -/
theorem calculateSimplifiedBalances_net_preserved_and_bounded
    (payments : List PayRec) (pid : String) :
    calculatePlayerBalance pid
        ((calculateSimplifiedBalances payments).map SimplifiedPayment.toPayRec)
        false =
      calculatePlayerBalance pid payments true ∧
    (calculateSimplifiedBalances payments).length ≤
      nonzeroBalanceCount payments - 1 := by
  obtain ⟨hnd, hsum0, hget⟩ := buildBalances_props payments
  have hcore := simplified_pipeline_core (buildBalances payments) hnd hsum0 pid
  have hunfold : calculateSimplifiedBalances payments =
      greedyMatch
        (sortDescByAmount
          (((buildBalances payments).filter (fun p => p.2 < 0)).map
            (fun p => (p.1, |p.2|))))
        (sortDescByAmount
          ((buildBalances payments).filter (fun p => 0 < p.2))) := rfl
  rw [hunfold, nonzeroBalanceCount]
  exact ⟨(hcore.1).trans (hget pid), hcore.2⟩

/-- C5 exhibit: on the three unpaid payments a→b of 1, b→c of 4 and
d→e of 2 there are three distinct (payer, payee) pairs, yet the greedy
netting emits four transactions (b→c 3, d→c 1, d→e 1, a→e 1), so the
claimed distinct-pair bound is false. -/
theorem calculateSimplifiedBalances_exceeds_pair_bound :
    (calculateSimplifiedBalances
        [⟨"a", "b", 1, some false⟩, ⟨"b", "c", 4, some false⟩,
         ⟨"d", "e", 2, some false⟩]).length = 4 ∧
    distinctUnpaidPairs
        [⟨"a", "b", 1, some false⟩, ⟨"b", "c", 4, some false⟩,
         ⟨"d", "e", 2, some false⟩] = 3 := by
  constructor
  · norm_num +decide [calculateSimplifiedBalances, buildBalances, balanceStep,
      mapSet, mapGetOr0, truthy, sortDescByAmount, List.insertionSort,
      List.orderedInsert, greedyMatch]
  · decide
